import Mathlib

/-!
Verification of the kakeibo (household ledger) core against its source.

The definitions below are a shallow embedding of `src/kakeibo_app`:
`validators.py` (date/amount parsing, the transaction build pipeline),
`models.py` (`Transaction`, `TransactionManager`, totals, CSV codec) and
the import/export event handlers of `ui/main/logic.py`. Python `Decimal`
values are modelled by the inductive `Dec` (sign, coefficient, exponent,
plus the special values), Python exceptions by explicit `Except` results,
and file I/O by an `Option` of the parsed row list. Strings are handled
as `List Char`; Python's `str.strip`, `str.split`, `str.replace` and
`str.isdigit` are modelled on ASCII character classes.
-/

namespace Kakeibo

/-! ## Character helpers (ASCII models of Python's character classes) -/

/-- ASCII decimal digit, the model of Python's `str.isdigit` restricted to
ASCII input. -/
def isAsciiDigit (c : Char) : Bool := 48 ≤ c.toNat && c.toNat ≤ 57

/-- ASCII whitespace, the model of the characters removed by `str.strip`. -/
def isSpaceCh (c : Char) : Bool :=
  c = ' ' || c = '\t' || c = '\n' || c = '\r' || c = '\x0b' || c = '\x0c'

/-- ASCII lower-casing, the model of the case-insensitivity of the decimal
numeric-string grammar. -/
def lowerCh (c : Char) : Char :=
  if 65 ≤ c.toNat && c.toNat ≤ 90 then Char.ofNat (c.toNat + 32) else c

/-- Numeric value of a digit character. -/
def digitVal (c : Char) : Nat := c.toNat - 48

/-- Digit character of a value below ten. -/
def chOfDigit : Nat → Char
  | 0 => '0' | 1 => '1' | 2 => '2' | 3 => '3' | 4 => '4'
  | 5 => '5' | 6 => '6' | 7 => '7' | 8 => '8' | _ => '9'

/-- `str.strip`: drop whitespace from both ends. -/
def stripWsList (l : List Char) : List Char :=
  ((l.dropWhile isSpaceCh).reverse.dropWhile isSpaceCh).reverse

/-- `str.strip` on a `String`. -/
def pyStrip (s : String) : String := ⟨stripWsList s.data⟩

/-- Python `str.split(sep)` for a one-character separator: keeps empty
groups, `"" ↦ [""]`. -/
def splitChar (sep : Char) : List Char → List (List Char)
  | [] => [[]]
  | x :: xs =>
    match splitChar sep xs with
    | [] => [[]]
    | g :: gs => if x = sep then [] :: g :: gs else (x :: g) :: gs

/-- Split a list at the first occurrence of `c`, if any. -/
def splitFirst (c : Char) : List Char → Option (List Char × List Char)
  | [] => none
  | x :: xs =>
    if x = c then some ([], xs)
    else
      match splitFirst c xs with
      | none => none
      | some (a, b) => some (x :: a, b)

/-! ## Digit strings and natural numbers -/

/-- Little-endian digit characters of a natural number; the first
argument is recursion fuel (any bound of at least the digit count). -/
def natDigitsAux : Nat → Nat → List Char
  | _, 0 => []
  | 0, _ + 1 => []
  | fuel + 1, n + 1 => chOfDigit ((n + 1) % 10) :: natDigitsAux fuel ((n + 1) / 10)

/-- Decimal digit characters of a natural number, most significant first. -/
def natDigitsCh (n : Nat) : List Char :=
  if n = 0 then ['0'] else (natDigitsAux n n).reverse

/-- Natural number denoted by a digit string (leading zeros allowed). -/
def natOfDigitsCh (ds : List Char) : Nat :=
  ds.foldl (fun a c => 10 * a + digitVal c) 0

/-! ## The `Dec` model of Python `decimal.Decimal` values

A finite value is a sign, a coefficient and an exponent; the special
values `Infinity` and (signaling) `NaN` are separate constructors, as in
the decimal arithmetic specification that `decimal` implements. -/

inductive Dec where
  | finite (neg : Bool) (coeff : Nat) (exp : Int)
  | infinity (neg : Bool)
  | nan (signaling : Bool) (payload : Nat)
  deriving DecidableEq, Repr

/-- `Decimal(0)`. -/
def Dec.zero : Dec := .finite false 0 0

/-- Whether the value is a (quiet or signaling) NaN: comparing such a
value with `<` raises `decimal.InvalidOperation` in Python. -/
def Dec.isNaN : Dec → Bool
  | .nan _ _ => true
  | _ => false

/-- The test `value < 1` of `parse_price`, defined on non-NaN values. -/
def Dec.lt1 : Dec → Bool
  | .finite neg c e =>
    if c = 0 then true
    else if neg then true
    else
      match e with
      | .ofNat _ => false
      | .negSucc k => c < 10 ^ (k + 1)
  | .infinity neg => neg
  | .nan _ _ => false

/-! ### The numeric-string parser (`Decimal(text)` constructor) -/

/-- Exponent part of a numeric string: optional sign, then digits. -/
def parseExp (cs : List Char) : Option Int :=
  if cs.take 1 = ['-'] then
    let ds := cs.drop 1
    if ds ≠ [] ∧ ds.all isAsciiDigit then some (-(natOfDigitsCh ds : Int)) else none
  else if cs.take 1 = ['+'] then
    let ds := cs.drop 1
    if ds ≠ [] ∧ ds.all isAsciiDigit then some (natOfDigitsCh ds : Int) else none
  else if cs ≠ [] ∧ cs.all isAsciiDigit then some (natOfDigitsCh cs : Int) else none

/-- Mantissa of a numeric string: digits with at most one point, at least
one digit overall; `e` is the already-parsed exponent. -/
def parseMant (neg : Bool) (cs : List Char) (e : Int) : Option Dec :=
  match splitFirst '.' cs with
  | none =>
    if cs ≠ [] ∧ cs.all isAsciiDigit then
      some (.finite neg (natOfDigitsCh cs) e)
    else none
  | some (ip, fp) =>
    if (ip ++ fp) ≠ [] ∧ ip.all isAsciiDigit ∧ fp.all isAsciiDigit then
      some (.finite neg (natOfDigitsCh (ip ++ fp)) (e - fp.length))
    else none

/-- Numeric (non-special) alternative of the grammar: mantissa with an
optional `e`-separated exponent. Input is already lower-cased. -/
def parseNumeric (neg : Bool) (cs : List Char) : Option Dec :=
  match splitFirst 'e' cs with
  | none => parseMant neg cs 0
  | some (mant, es) =>
    match parseExp es with
    | none => none
    | some e => parseMant neg mant e

/-- Body of the decimal grammar after the optional sign: `Infinity`,
`NaN` (optionally signaling, with an optional digit payload), or a
numeric string. Input is already lower-cased. -/
def parseBody (neg : Bool) (cs : List Char) : Option Dec :=
  if cs = ['i', 'n', 'f'] ∨ cs = ['i', 'n', 'f', 'i', 'n', 'i', 't', 'y'] then
    some (.infinity neg)
  else if cs.take 4 = ['s', 'n', 'a', 'n'] then
    if (cs.drop 4).all isAsciiDigit then some (.nan true (natOfDigitsCh (cs.drop 4))) else none
  else if cs.take 3 = ['n', 'a', 'n'] then
    if (cs.drop 3).all isAsciiDigit then some (.nan false (natOfDigitsCh (cs.drop 3))) else none
  else parseNumeric neg cs

/-- Optional leading sign of the decimal grammar. -/
def parseSigned (cs : List Char) : Option Dec :=
  if cs.take 1 = ['-'] then parseBody true (cs.drop 1)
  else if cs.take 1 = ['+'] then parseBody false (cs.drop 1)
  else parseBody false cs

/-- The `Decimal(text)` constructor: strips surrounding whitespace,
removes underscores, and matches the (case-insensitive) numeric-string
grammar; `none` models a raised `decimal.InvalidOperation`. -/
def decimalCtor (cs : List Char) : Option Dec :=
  parseSigned (((stripWsList cs).filter (fun c => c ≠ '_')).map lowerCh)

/-! ### The printer (`str(Decimal)`, the to-scientific-string conversion) -/

/-- Mantissa of the scientific form: the digits with a point after the
first one (or no point when there is a single digit). -/
def sciMant (ds : List Char) : List Char :=
  if ds.length = 1 then ds else ds.take 1 ++ '.' :: ds.drop 1

/-- Exponent part of the scientific form: always-signed decimal. -/
def sciExpPart (ex : Int) : List Char :=
  if ex < 0 then '-' :: natDigitsCh (-ex).toNat else '+' :: natDigitsCh ex.toNat

/-- Character list of `str` applied to a finite decimal: plain notation
when the exponent is non-positive and the adjusted exponent is at least
-6, scientific notation otherwise. -/
def decStrFinite (neg : Bool) (c : Nat) (e : Int) : List Char :=
  (if neg then ['-'] else []) ++
  (if e ≤ 0 ∧ -6 < e + ((natDigitsCh c).length : Int) then
    (if e = 0 then natDigitsCh c
     else if e + ((natDigitsCh c).length : Int) ≤ 0 then
       '0' :: '.' :: (List.replicate (-(e + ((natDigitsCh c).length : Int))).toNat '0' ++
         natDigitsCh c)
     else (natDigitsCh c).take (e + ((natDigitsCh c).length : Int)).toNat ++
       '.' :: (natDigitsCh c).drop (e + ((natDigitsCh c).length : Int)).toNat)
   else sciMant (natDigitsCh c) ++
     'E' :: sciExpPart (e + ((natDigitsCh c).length : Int) - 1))

/-- `str(Decimal)`: the exact decimal string written by `export_csv`. -/
def decStr : Dec → String
  | .finite neg c e => ⟨decStrFinite neg c e⟩
  | .infinity neg => if neg then "-Infinity" else "Infinity"
  | .nan s p =>
    ⟨(if s then ['s', 'N', 'a', 'N'] else ['N', 'a', 'N']) ++
      (if p = 0 then [] else natDigitsCh p)⟩

/-! ## Error model

Python exceptions of the pipeline: `ValueError` with its magic error-code
string, and the `decimal.InvalidOperation` that escapes `parse_price`
when a parsed NaN is compared with `<`. -/

inductive VErrCode where
  | empty | format_error | invalid_date | invalid_type
  | invalid_price | negative_price | insufficient_columns
  deriving DecidableEq, Repr

inductive PyExn where
  | valueError (code : VErrCode)
  | invalidOperation
  deriving DecidableEq, Repr

/-! ## `validators.parse_decimal` and `validators.parse_price` -/

/-- `parse_decimal`: removes `¥` and `,`, strips whitespace, rejects the
empty remainder, then applies the `Decimal` constructor. `none` models a
raised `decimal.InvalidOperation`. -/
def parse_decimal (text : String) : Option Dec :=
  if stripWsList ((text.data.filter (fun c => c ≠ '¥')).filter (fun c => c ≠ ',')) = []
  then none
  else decimalCtor
    (stripWsList ((text.data.filter (fun c => c ≠ '¥')).filter (fun c => c ≠ ',')))

/-- `parse_price`: `invalid_price` when `parse_decimal` raises,
`negative_price` when the value is `< 1`; when the value is a NaN the
comparison itself raises `decimal.InvalidOperation`, which the function
does not catch. -/
def parse_price (text : String) : Except PyExn Dec :=
  match parse_decimal text with
  | none => .error (.valueError .invalid_price)
  | some v =>
    if v.isNaN then .error .invalidOperation
    else if v.lt1 then .error (.valueError .negative_price)
    else .ok v

/-! ## `validators.parse_date` -/

/-- A calendar date as returned by `datetime.date.fromisoformat`. -/
structure CalDate where
  year : Nat
  month : Nat
  day : Nat
  deriving DecidableEq, Repr

/-- Gregorian leap year. -/
def isLeap (y : Nat) : Bool := y % 4 = 0 && (y % 100 ≠ 0 || y % 400 = 0)

/-- Days in a month (month assumed in 1..12 by the caller). -/
def daysInMonth (y m : Nat) : Nat :=
  match m with
  | 1 => 31 | 2 => if isLeap y then 29 else 28 | 3 => 31 | 4 => 30
  | 5 => 31 | 6 => 30 | 7 => 31 | 8 => 31 | 9 => 30 | 10 => 31
  | 11 => 30 | _ => 31

/-- The distinct `ValueError`s of `date.fromisoformat`, distinguished by
the message substrings `parse_date` looks for: only `monthRange`
("month must be in 1..12") and `dayRange` ("day is out of range for
month") match; `badFormat` ("Invalid isoformat string") and `yearZero`
("year 0 is out of range") do not. -/
inductive IsoFail where
  | badFormat | yearZero | monthRange | dayRange
  deriving DecidableEq, Repr

/-- `date.fromisoformat` applied to three digit groups joined by `-`:
accepts exactly the 4-2-2 digit widths, then checks year, month and day
in the order of the `date` constructor. -/
def fromisoformat3 (y m d : List Char) : Except IsoFail CalDate :=
  if y.length ≠ 4 ∨ m.length ≠ 2 ∨ d.length ≠ 2 then .error .badFormat
  else if natOfDigitsCh y = 0 then .error .yearZero
  else if natOfDigitsCh m < 1 ∨ 12 < natOfDigitsCh m then .error .monthRange
  else if natOfDigitsCh d < 1 ∨
      daysInMonth (natOfDigitsCh y) (natOfDigitsCh m) < natOfDigitsCh d then
    .error .dayRange
  else .ok ⟨natOfDigitsCh y, natOfDigitsCh m, natOfDigitsCh d⟩

/-- A `/`-separated group accepted by the `part.isdigit()` loop. -/
def isDigitGroup (p : List Char) : Bool := !p.isEmpty && p.all isAsciiDigit

/-- `parse_date`: strip; `empty` on blank; split on `/`; `format_error`
unless exactly three all-digit groups; then `fromisoformat` on the
`/`→`-` replacement, mapping its errors by message content. -/
def parse_date (text : String) : Except PyExn CalDate :=
  let t := stripWsList text.data
  if t = [] then .error (.valueError .empty)
  else
    let parts := splitChar '/' t
    if parts.length ≠ 3 then .error (.valueError .format_error)
    else if !parts.all isDigitGroup then .error (.valueError .format_error)
    else
      match parts with
      | [y, m, d] =>
        match fromisoformat3 y m d with
        | .ok dd => .ok dd
        | .error .monthRange => .error (.valueError .invalid_date)
        | .error .dayRange => .error (.valueError .invalid_date)
        | .error _ => .error (.valueError .format_error)
      | _ => .error (.valueError .format_error)

/-! ## Category and type constants (`constants.py`, values as defined in
the repository's parallel implementation `app/kakeibo.py`) -/

def EXPENSE_CATEGORIES : List String :=
  ["食費", "日用品", "交通", "交際費", "娯楽",
   "住居", "光熱費", "医療", "教育", "貯金", "その他"]

def INCOME_CATEGORIES : List String :=
  ["給与", "ボーナス", "副業", "投資", "その他収入"]

def TRANSACTION_TYPES : List String := ["支出", "収入"]

/-! ## `models.Transaction` and the build pipeline -/

structure Transaction where
  date : String
  transaction_type : String
  category : String
  price : Dec
  memo : String
  deriving DecidableEq, Repr

/-- `validate_transaction_type`: strip, then membership in the type
list. -/
def validate_transaction_type (text : String) (types : List String) :
    Except PyExn String :=
  let v := pyStrip text
  if v ∈ types then .ok v else .error (.valueError .invalid_type)

/-- `normalize_category`: choose the list by the (validated) type; blank
or unknown input is coerced to the list's first entry. -/
def normalize_category (category : String) (transaction_type : String)
    (expense_categories income_categories : List String) : String :=
  if pyStrip category = "" ∨ pyStrip category ∉
      (if transaction_type = "支出" then expense_categories else income_categories) then
    (if transaction_type = "支出" then expense_categories else income_categories).headD ""
  else pyStrip category

/-- `build_transaction_from_form`: date, type, amount checks in source
order, then category normalization (never fails); stores the date string
as given, the stripped type, the normalized category, the parsed price
and the stripped memo. -/
def build_transaction_from_form (date_str transaction_type category price_str memo : String)
    (expense_categories income_categories types : List String) :
    Except PyExn Transaction :=
  match parse_date date_str with
  | .error e => .error e
  | .ok _ =>
    match validate_transaction_type transaction_type types with
    | .error e => .error e
    | .ok validated_type =>
      match parse_price price_str with
      | .error e => .error e
      | .ok price =>
        .ok ⟨date_str, validated_type,
             normalize_category category validated_type expense_categories income_categories,
             price, pyStrip memo⟩

/-- `build_transaction_from_row`: `insufficient_columns` below four
fields; otherwise delegates with the date trimmed and `row[4]` (or `""`)
as memo. -/
def build_transaction_from_row (row : List String)
    (expense_categories income_categories types : List String) :
    Except PyExn Transaction :=
  match row with
  | d :: k :: c :: p :: rest =>
    build_transaction_from_form (pyStrip d) k c p (rest.headD "")
      expense_categories income_categories types
  | _ => .error (.valueError .insufficient_columns)

/-- The pipeline as wired in `ui/main/logic.py`, with the application's
constant category and type lists. -/
def buildFormApp (d k c p m : String) : Except PyExn Transaction :=
  build_transaction_from_form d k c p m
    EXPENSE_CATEGORIES INCOME_CATEGORIES TRANSACTION_TYPES

/-- The row validator passed to `import_csv` by `on_import_csv`. -/
def validatorApp (row : List String) : Except PyExn Transaction :=
  build_transaction_from_row row
    EXPENSE_CATEGORIES INCOME_CATEGORIES TRANSACTION_TYPES

/-! ## `models.TransactionManager` -/

/-- The store: an insertion-ordered mapping from Treeview iids to
transactions (`dict` preserves insertion order). -/
structure TransactionManager where
  items : List (String × Transaction)
  deriving DecidableEq, Repr

/-- `add_transaction` / `update_transaction`: dict assignment. -/
def TransactionManager.add_transaction (mgr : TransactionManager)
    (iid : String) (t : Transaction) : TransactionManager :=
  if mgr.items.any (fun p => p.1 = iid) then
    ⟨mgr.items.map (fun p => if p.1 = iid then (iid, t) else p)⟩
  else ⟨mgr.items ++ [(iid, t)]⟩

/-- `calculate_totals`: a single pass accumulating the `支出` entries
into the expense sum and every other entry into the income sum, with
`net = income - expense`. Exact (unrounded) decimal addition. -/
def Dec.addE : Dec → Dec → Dec
  | .nan s p, _ => .nan s p
  | _, .nan s p => .nan s p
  | .infinity n1, .infinity n2 => if n1 = n2 then .infinity n1 else .nan false 0
  | .infinity n1, .finite _ _ _ => .infinity n1
  | .finite _ _ _, .infinity n2 => .infinity n2
  | .finite n1 c1 e1, .finite n2 c2 e2 =>
    let m := min e1 e2
    let z : Int := (if n1 then -(c1 : Int) else c1) * 10 ^ (e1 - m).toNat +
                   (if n2 then -(c2 : Int) else c2) * 10 ^ (e2 - m).toNat
    .finite (z < 0) z.natAbs m

/-- Negation of a decimal value. -/
def Dec.negE : Dec → Dec
  | .finite n c e => .finite (!n) c e
  | .infinity n => .infinity (!n)
  | .nan s p => .nan s p

/-- Decimal subtraction. -/
def Dec.subE (a b : Dec) : Dec := a.addE b.negE

def TransactionManager.calculate_totals (mgr : TransactionManager) :
    Dec × Dec × Dec :=
  let p := mgr.items.foldl
    (fun (acc : Dec × Dec) it =>
      if it.2.transaction_type = "支出" then (acc.1.addE it.2.price, acc.2)
      else (acc.1, acc.2.addE it.2.price))
    (Dec.zero, Dec.zero)
  (p.1, p.2, p.2.subE p.1)

/-! ## CSV codec (`export_csv` / `import_csv`)

The codec is modelled at the level of cell rows (`List (List String)`):
the `csv` module's quoting round-trips cell lists exactly, so the file
is identified with its parsed rows. A failed file open/read is the
`none` input; a raised exception inside the reader loop is caught by the
method's outer `except Exception` and re-raised as `IOError`, modelled
as `.error ()`. -/

def csvHeader4 : List String := ["日付", "種類", "カテゴリ", "金額"]

def csvHeader5 : List String := ["日付", "種類", "カテゴリ", "金額", "メモ"]

/-- The CSV cells written for one stored transaction: date, type,
category, `str(price)`, memo. -/
def rowOf (t : Transaction) : List String :=
  [t.date, t.transaction_type, t.category, decStr t.price, t.memo]

/-- The rows written by `export_csv`: the fixed header, then one row per
entry in store iteration order. -/
def export_rows (mgr : TransactionManager) : List (List String) :=
  csvHeader5 :: mgr.items.map (fun p => rowOf p.2)

/-- `rows and rows[0][:4] == ["日付", "種類", "カテゴリ", "金額"]`. -/
def headerLike (rows : List (List String)) : Bool :=
  match rows with
  | r :: _ => r.take 4 = csvHeader4
  | [] => false

/-- The row loop of `import_csv`: a `ValueError` from the validator
increments the invalid count and the loop continues; any other exception
(the escaped `decimal.InvalidOperation`) aborts the whole import, which
the outer handler turns into `IOError`. -/
def importStep (validator : List String → Except PyExn Transaction)
    (acc : Except Unit (Nat × Nat × List Transaction)) (row : List String) :
    Except Unit (Nat × Nat × List Transaction) :=
  match acc with
  | .error e => .error e
  | .ok (added, invalid, ts) =>
    match validator row with
    | .ok t => .ok (added + 1, invalid, ts ++ [t])
    | .error (.valueError _) => .ok (added, invalid + 1, ts)
    | .error .invalidOperation => .error ()

def import_rows (validator : List String → Except PyExn Transaction)
    (rows : List (List String)) : Except Unit (Nat × Nat × List Transaction) :=
  (rows.drop (if headerLike rows then 1 else 0)).foldl (importStep validator) (.ok (0, 0, []))

/-- `import_csv` as a method: reads the file (`none` = unreadable),
processes the rows, and never assigns to `self.items`. -/
def TransactionManager.import_csv (mgr : TransactionManager)
    (file : Option (List (List String)))
    (validator : List String → Except PyExn Transaction) :
    TransactionManager × Except Unit (Nat × Nat × List Transaction) :=
  (mgr,
   match file with
   | none => .error ()
   | some rows => import_rows validator rows)

/-- `export_csv` as a method: on a writable path returns the entry count
(and, in the model, the written rows); never assigns to `self.items`. -/
def TransactionManager.export_csv (mgr : TransactionManager) (writable : Bool) :
    TransactionManager × Except Unit (Nat × List (List String)) :=
  (mgr, if writable then .ok (mgr.items.length, export_rows mgr) else .error ())

/-- Commit loop of `on_import_csv`: insert each accepted transaction
under a fresh Treeview iid. -/
def commitAll (mgr : TransactionManager) (ts : List Transaction) :
    TransactionManager :=
  ts.foldl (fun m t => m.add_transaction (toString m.items.length) t) mgr

/-- `on_import_csv` (`ui/main/logic.py`): parse the whole file first;
on failure only show a message box (store untouched); on success insert
the accepted transactions. -/
def on_import_csv (mgr : TransactionManager)
    (file : Option (List (List String))) : TransactionManager :=
  match (mgr.import_csv file validatorApp).2 with
  | .error _ => mgr
  | .ok (_, _, ts) => commitAll mgr ts

/-! ## Spec-side definitions

`specDateResult` restates the (amended) specification wording for
`parseLedgerDate` as a classifier over the same inputs, to be compared
with the source-derived `parse_date`. `decSum` is the specification's
"sum of amounts" of a selection of entries. -/

/-- The date outcome as worded by the amended specification: blank →
EmptyDate; not exactly three `/`-separated numeric groups → MalformedDate;
groups not in 4-2-2 digit widths, or a zero year, → MalformedDate;
month outside 1–12 or day not a real day of that month/year →
NonexistentDate; otherwise the calendar date. -/
def specDateResult (text : String) : Except PyExn CalDate :=
  let t := stripWsList text.data
  if t = [] then .error (.valueError .empty)
  else
    match splitChar '/' t with
    | [y, m, d] =>
      if isDigitGroup y && isDigitGroup m && isDigitGroup d then
        if y.length = 4 ∧ m.length = 2 ∧ d.length = 2 ∧ 1 ≤ natOfDigitsCh y then
          if 1 ≤ natOfDigitsCh m ∧ natOfDigitsCh m ≤ 12 ∧
             1 ≤ natOfDigitsCh d ∧
             natOfDigitsCh d ≤ daysInMonth (natOfDigitsCh y) (natOfDigitsCh m) then
            .ok ⟨natOfDigitsCh y, natOfDigitsCh m, natOfDigitsCh d⟩
          else .error (.valueError .invalid_date)
        else .error (.valueError .format_error)
      else .error (.valueError .format_error)
    | _ => .error (.valueError .format_error)

/-- Sum of a list of amounts, as accumulated by `calculate_totals`. -/
def decSum (l : List Dec) : Dec := l.foldl Dec.addE Dec.zero

/-- Per-field invalidity, used to count how many raw fields of a form
submission are invalid (category "invalid" meaning it would be coerced). -/
def dateInvalid (d : String) : Bool :=
  match parse_date d with | .error _ => true | .ok _ => false

def typeInvalid (k : String) : Bool := decide (pyStrip k ∉ TRANSACTION_TYPES)

def amountInvalid (p : String) : Bool :=
  match parse_price p with | .error _ => true | .ok _ => false

def categoryInvalid (c k : String) : Bool :=
  let lst := if pyStrip k = "支出" then EXPENSE_CATEGORIES else INCOME_CATEGORIES
  decide (pyStrip c = "" ∨ pyStrip c ∉ lst)

def invalidFieldCount (d k c p : String) : Nat :=
  (dateInvalid d).toNat + (typeInvalid k).toNat +
    (amountInvalid p).toNat + (categoryInvalid c k).toNat

/-- The single error the fixed check order surfaces: the date error if
the date is invalid, else the type error, else the amount error. -/
def firstFormError (d k p : String) : PyExn :=
  match parse_date d with
  | .error e => e
  | .ok _ =>
    match validate_transaction_type k TRANSACTION_TYPES with
    | .error e => e
    | .ok _ =>
      match parse_price p with
      | .error e => e
      | .ok _ => .valueError .invalid_price

/-- The category list the pipeline associates with a validated kind. -/
def categoriesFor (ty : String) : List String :=
  if ty = "支出" then EXPENSE_CATEGORIES else INCOME_CATEGORIES

/-! ## Concrete stores and inputs used by the claim theorems -/

/-- Concrete import file for C3: three valid rows and one two-field
row. -/
def c3file : List (List String) :=
  [["2024/01/05", "支出", "食費", "1000"],
   ["2024/01/06", "収入", "給与", "2000"],
   ["2024/01/07", "支出", "交通", "300"],
   ["2024/01/08", "支出"]]

/-- The C6 counterexample store: a single entry whose transaction type
is neither `支出` nor `収入`. -/
def c6mgr : TransactionManager :=
  ⟨[("1", ⟨"2024/01/01", "その他", "x", .finite false 100 0, ""⟩)]⟩

/-- The specification's worked example store for totals. -/
def c6mgr3 : TransactionManager :=
  ⟨[("1", ⟨"d", "支出", "c", .finite false 100 0, ""⟩),
    ("2", ⟨"d", "収入", "c", .finite false 250 0, ""⟩),
    ("3", ⟨"d", "支出", "c", .finite false 50 0, ""⟩)]⟩

/-- The C1 counterexample transaction: built by the form pipeline with a
leading space kept in the stored date string. -/
def c1tx0 : Transaction := ⟨" 2025/01/01", "支出", "食費", .finite false 100 0, ""⟩

/-- A form-built expense with a grouped yen amount. -/
def c1tx1 : Transaction := ⟨"2025/01/03", "支出", "食費", .finite false 1234 0, "memo x"⟩

/-- A form-built income with a fractional decimal amount. -/
def c1tx2 : Transaction := ⟨"2025/02/14", "収入", "給与", .finite false 200050 (-2), ""⟩

/-- A two-entry store of pipeline-built, date-trimmed transactions. -/
def c1mgr : TransactionManager := ⟨[("a", c1tx1), ("b", c1tx2)]⟩

/-! ## Helper lemmas -/

/-- The single accumulating pass of `calculate_totals` computes, in each
component, the fold of the amounts of the correspondingly filtered
entries. -/
lemma totals_foldl (l : List (String × Transaction)) (a b : Dec) :
    l.foldl
      (fun (acc : Dec × Dec) it =>
        if it.2.transaction_type = "支出" then (acc.1.addE it.2.price, acc.2)
        else (acc.1, acc.2.addE it.2.price)) (a, b) =
    (((l.filter (fun it => it.2.transaction_type = "支出")).map
        (fun it => it.2.price)).foldl Dec.addE a,
     ((l.filter (fun it => ¬ it.2.transaction_type = "支出")).map
        (fun it => it.2.price)).foldl Dec.addE b) := by
  induction l generalizing a b with
  | nil => rfl
  | cons x xs ih =>
    by_cases hx : x.2.transaction_type = "支出" <;>
      simp [hx, ih, List.filter_cons]

/-- The error mapping `parse_date` applies to `fromisoformat` failures
agrees with the width/year/month/day classification of the amended
specification. -/
lemma iso_bridge (y m d : List Char) :
    (match fromisoformat3 y m d with
     | .ok dd => (.ok dd : Except PyExn CalDate)
     | .error .monthRange => .error (.valueError .invalid_date)
     | .error .dayRange => .error (.valueError .invalid_date)
     | .error _ => .error (.valueError .format_error)) =
    (if y.length = 4 ∧ m.length = 2 ∧ d.length = 2 ∧ 1 ≤ natOfDigitsCh y then
       if 1 ≤ natOfDigitsCh m ∧ natOfDigitsCh m ≤ 12 ∧ 1 ≤ natOfDigitsCh d ∧
          natOfDigitsCh d ≤ daysInMonth (natOfDigitsCh y) (natOfDigitsCh m) then
         .ok ⟨natOfDigitsCh y, natOfDigitsCh m, natOfDigitsCh d⟩
       else .error (.valueError .invalid_date)
     else .error (.valueError .format_error)) := by
  unfold fromisoformat3
  split_ifs <;> first | rfl | (exfalso; omega)


/-! Character class facts -/

lemma digit_toNat {ch : Char} (h : isAsciiDigit ch = true) :
    48 ≤ ch.toNat ∧ ch.toNat ≤ 57 := by
  unfold isAsciiDigit at h
  exact ⟨by simpa using (Bool.and_elim_left h), by simpa using (Bool.and_elim_right h)⟩

lemma digit_lower {ch : Char} (h : isAsciiDigit ch = true) : lowerCh ch = ch := by
  have := digit_toNat h
  unfold lowerCh
  rw [if_neg]
  simp only [Bool.and_eq_true, decide_eq_true_eq, not_and]
  omega

lemma digit_not_space {ch : Char} (h : isAsciiDigit ch = true) :
    isSpaceCh ch = false := by
  have h2 := digit_toNat h
  unfold isSpaceCh
  simp only [Bool.or_eq_false_iff, decide_eq_false_iff_not]
  refine ⟨⟨⟨⟨⟨?_, ?_⟩, ?_⟩, ?_⟩, ?_⟩, ?_⟩ <;>
    (intro he; subst he; revert h2; decide)

lemma digit_ne {ch : Char} (h : isAsciiDigit ch = true) (c : Char)
    (hc : c.toNat < 48 ∨ 57 < c.toNat) : ch ≠ c := by
  have h2 := digit_toNat h
  intro he
  subst he
  omega



/-! Digit list facts -/

lemma chOfDigit_isDigit (d : Nat) : isAsciiDigit (chOfDigit d) = true := by
  unfold chOfDigit
  split <;> rfl

lemma digitVal_chOfDigit {d : Nat} (h : d < 10) : digitVal (chOfDigit d) = d := by
  interval_cases d <;> rfl

lemma natDigitsAux_eq (fuel : Nat) : ∀ n, n ≤ fuel →
    natDigitsAux fuel n = (Nat.digits 10 n).map chOfDigit := by
  induction fuel with
  | zero =>
    intro n h
    interval_cases n
    simp [natDigitsAux, Nat.digits_zero]
  | succ fuel ih =>
    intro n h
    cases n with
    | zero => simp [natDigitsAux, Nat.digits_zero]
    | succ n =>
      rw [show natDigitsAux (fuel + 1) (n + 1) =
          chOfDigit ((n + 1) % 10) :: natDigitsAux fuel ((n + 1) / 10) from rfl]
      rw [Nat.digits_def' (by norm_num : (1 : Nat) < 10) (Nat.succ_pos n),
        List.map_cons]
      rw [ih ((n + 1) / 10)
        (by
          have := Nat.div_lt_self (Nat.succ_pos n) (by norm_num : (1 : Nat) < 10)
          omega)]

lemma natDigitsCh_eq (n : Nat) :
    natDigitsCh n = if n = 0 then ['0'] else ((Nat.digits 10 n).map chOfDigit).reverse := by
  unfold natDigitsCh
  by_cases h0 : n = 0
  · rw [if_pos h0, if_pos h0]
  · rw [if_neg h0, if_neg h0, natDigitsAux_eq n n le_rfl]

lemma natDigitsCh_digits (n : Nat) : ∀ ch ∈ natDigitsCh n, isAsciiDigit ch = true := by
  intro ch hch
  rw [natDigitsCh_eq] at hch
  by_cases h0 : n = 0
  · simp [h0] at hch
    subst hch; rfl
  · rw [if_neg h0, List.mem_reverse, List.mem_map] at hch
    obtain ⟨d, _, hd2⟩ := hch
    rw [← hd2]
    exact chOfDigit_isDigit d

lemma natDigitsCh_ne_nil (n : Nat) : natDigitsCh n ≠ [] := by
  rw [natDigitsCh_eq]
  by_cases h0 : n = 0
  · simp [h0]
  · rw [if_neg h0]
    simp [Nat.digits_ne_nil_iff_ne_zero, h0]

lemma ofDigits_foldr (ds : List Nat) (h : ∀ d ∈ ds, d < 10) :
    (ds.map chOfDigit).foldr (fun ch acc => 10 * acc + digitVal ch) 0 =
      Nat.ofDigits 10 ds := by
  induction ds with
  | nil => rfl
  | cons d ds ih =>
    simp only [List.map_cons, List.foldr_cons, Nat.ofDigits_cons,
      digitVal_chOfDigit (h d (by simp)), ih (fun x hx => h x (by simp [hx]))]
    ring

lemma natOfDigitsCh_natDigitsCh (n : Nat) : natOfDigitsCh (natDigitsCh n) = n := by
  by_cases h0 : n = 0
  · subst h0; rfl
  · rw [natDigitsCh_eq]
    unfold natOfDigitsCh
    rw [if_neg h0, List.foldl_reverse]
    rw [show (fun (x : Char) (y : Nat) => 10 * y + digitVal x) =
        (fun ch acc => 10 * acc + digitVal ch) from rfl]
    rw [ofDigits_foldr _ (fun d hd => Nat.digits_lt_base (by norm_num) hd)]
    exact Nat.ofDigits_digits 10 n

lemma natOfDigitsCh_zero_cons (l : List Char) :
    natOfDigitsCh ('0' :: l) = natOfDigitsCh l := rfl

lemma natOfDigitsCh_zeros (z : Nat) (l : List Char) :
    natOfDigitsCh (List.replicate z '0' ++ l) = natOfDigitsCh l := by
  induction z with
  | zero => rfl
  | succ z ih => simpa [List.replicate_succ] using ih



/-! splitFirst facts -/

lemma splitFirst_of_not_mem {c : Char} {l : List Char} (h : ∀ x ∈ l, x ≠ c) :
    splitFirst c l = none := by
  induction l with
  | nil => rfl
  | cons x xs ih =>
    unfold splitFirst
    rw [if_neg (h x (by simp)), ih (fun y hy => h y (by simp [hy]))]

lemma splitFirst_append {c : Char} (l1 l2 : List Char) (h : ∀ x ∈ l1, x ≠ c) :
    splitFirst c (l1 ++ c :: l2) = some (l1, l2) := by
  induction l1 with
  | nil => simp [splitFirst]
  | cons x xs ih =>
    rw [List.cons_append]
    simp only [splitFirst]
    rw [if_neg (h x (by simp)), ih (fun y hy => h y (by simp [hy]))]

/-! strip facts -/

lemma dropWhile_idem (p : Char → Bool) (l : List Char) :
    (l.dropWhile p).dropWhile p = l.dropWhile p := by
  induction l with
  | nil => rfl
  | cons x xs ih =>
    by_cases hx : p x = true
    · simp [List.dropWhile_cons, hx, ih]
    · simp [List.dropWhile_cons, hx]

lemma dropWhile_headD (p : Char → Bool) (l : List Char) (d : Char)
    (h : l.dropWhile p ≠ []) : p ((l.dropWhile p).headD d) = false := by
  induction l with
  | nil => exact absurd rfl h
  | cons x xs ih =>
    by_cases hx : p x = true
    · rw [List.dropWhile_cons, if_pos hx] at h ⊢
      exact ih h
    · rw [List.dropWhile_cons, if_neg hx]
      simpa using hx

lemma dropWhile_of_headD_false (p : Char → Bool) (l : List Char)
    (h : l = [] ∨ p (l.headD 'x') = false) : l.dropWhile p = l := by
  rcases h with h | h
  · simp [h]
  · cases l with
    | nil => rfl
    | cons x xs => simp only [List.headD_cons] at h; simp [List.dropWhile_cons, h]

lemma stripWs_front (l : List Char) :
    ∃ t, l.dropWhile isSpaceCh = stripWsList l ++ t := by
  unfold stripWsList
  refine ⟨((l.dropWhile isSpaceCh).reverse.takeWhile isSpaceCh).reverse, ?_⟩
  rw [← List.reverse_append, List.takeWhile_append_dropWhile, List.reverse_reverse]

lemma stripWs_idem (l : List Char) :
    stripWsList (stripWsList l) = stripWsList l := by
  have hd1 : (stripWsList l).dropWhile isSpaceCh = stripWsList l := by
    apply dropWhile_of_headD_false
    cases hB : stripWsList l with
    | nil => exact Or.inl rfl
    | cons b bs =>
      right
      obtain ⟨t, ht⟩ := stripWs_front l
      rw [hB] at ht
      have hne : l.dropWhile isSpaceCh ≠ [] := by
        rw [ht]; simp
      have := dropWhile_headD isSpaceCh l 'x' hne
      rw [ht] at this
      simpa using this
  have h2 : (stripWsList l).reverse.dropWhile isSpaceCh = (stripWsList l).reverse := by
    have hrev : (stripWsList l).reverse =
        (l.dropWhile isSpaceCh).reverse.dropWhile isSpaceCh := by
      unfold stripWsList
      rw [List.reverse_reverse]
    rw [hrev, dropWhile_idem]
  rw [show stripWsList (stripWsList l) =
      (((stripWsList l).dropWhile isSpaceCh).reverse.dropWhile isSpaceCh).reverse from rfl]
  rw [hd1, h2, List.reverse_reverse]

lemma stripWs_of_no_space {l : List Char} (h : ∀ ch ∈ l, isSpaceCh ch = false) :
    stripWsList l = l := by
  unfold stripWsList
  have h1 : l.dropWhile isSpaceCh = l := by
    apply dropWhile_of_headD_false
    cases l with
    | nil => exact Or.inl rfl
    | cons x xs => exact Or.inr (by simpa using h x (by simp))
  rw [h1]
  have h2 : l.reverse.dropWhile isSpaceCh = l.reverse := by
    apply dropWhile_of_headD_false
    cases hl : l.reverse with
    | nil => exact Or.inl rfl
    | cons x xs =>
      right
      have : x ∈ l := by
        rw [← List.mem_reverse, hl]; simp
      simpa using h x this
  rw [h2, List.reverse_reverse]



/-! Printer character set -/

def plainCh (ch : Char) : Bool :=
  isAsciiDigit ch || ch = '.' || ch = 'E' || ch = '+' || ch = '-'

lemma plain_not_space {ch : Char} (h : plainCh ch = true) : isSpaceCh ch = false := by
  unfold plainCh at h
  rcases Bool.or_eq_true_iff.mp h with h | h
  rcases Bool.or_eq_true_iff.mp h with h | h
  rcases Bool.or_eq_true_iff.mp h with h | h
  rcases Bool.or_eq_true_iff.mp h with h | h
  · exact digit_not_space h
  all_goals (simp only [decide_eq_true_eq] at h; subst h; rfl)

lemma plain_ne {ch : Char} (h : plainCh ch = true) :
    ch ≠ '_' ∧ ch ≠ '¥' ∧ ch ≠ ',' := by
  unfold plainCh at h
  rcases Bool.or_eq_true_iff.mp h with h | h
  rcases Bool.or_eq_true_iff.mp h with h | h
  rcases Bool.or_eq_true_iff.mp h with h | h
  rcases Bool.or_eq_true_iff.mp h with h | h
  · exact ⟨digit_ne h '_' (by decide), digit_ne h '¥' (by decide),
      digit_ne h ',' (by decide)⟩
  all_goals (simp only [decide_eq_true_eq] at h; subst h; refine ⟨by decide, by decide, by decide⟩)

lemma map_lower_digits {l : List Char} (h : ∀ ch ∈ l, isAsciiDigit ch = true) :
    l.map lowerCh = l := by
  induction l with
  | nil => rfl
  | cons x xs ih =>
    rw [List.map_cons, digit_lower (h x (by simp)), ih (fun ch hch => h ch (by simp [hch]))]



/-! Parser steps on shaped inputs -/

lemma parseSigned_digit_head {ch : Char} {rest : List Char}
    (h : isAsciiDigit ch = true) :
    parseSigned (ch :: rest) = parseBody false (ch :: rest) := by
  unfold parseSigned
  rw [if_neg, if_neg]
  · simp only [List.take_succ_cons, List.take_zero, List.cons.injEq, and_true]
    exact digit_ne h '+' (by decide)
  · simp only [List.take_succ_cons, List.take_zero, List.cons.injEq, and_true]
    exact digit_ne h '-' (by decide)

lemma parseBody_digit_head {neg : Bool} {ch : Char} {rest : List Char}
    (h : isAsciiDigit ch = true) :
    parseBody neg (ch :: rest) = parseNumeric neg (ch :: rest) := by
  unfold parseBody
  rw [if_neg, if_neg, if_neg]
  · simp only [List.take_succ_cons, List.cons.injEq]
    intro hc
    exact digit_ne h 'n' (by decide) hc.1
  · simp only [List.take_succ_cons, List.cons.injEq]
    intro hc
    exact digit_ne h 's' (by decide) hc.1
  · rintro (hc | hc) <;>
      (rw [List.cons.injEq] at hc; exact digit_ne h 'i' (by decide) hc.1)

lemma parseNumeric_digits {neg : Bool} {l : List Char} (hne : l ≠ [])
    (hd : ∀ ch ∈ l, isAsciiDigit ch = true) :
    parseNumeric neg l = some (.finite neg (natOfDigitsCh l) 0) := by
  unfold parseNumeric
  rw [splitFirst_of_not_mem (fun x hx => digit_ne (hd x hx) 'e' (by decide))]
  unfold parseMant
  rw [splitFirst_of_not_mem (fun x hx => digit_ne (hd x hx) '.' (by decide))]
  rw [if_pos ⟨hne, List.all_eq_true.mpr hd⟩]

lemma parseMant_dot {neg : Bool} (ip fp : List Char) (e : Int)
    (hip : ∀ ch ∈ ip, isAsciiDigit ch = true)
    (hfp : ∀ ch ∈ fp, isAsciiDigit ch = true)
    (hne : ip ++ fp ≠ []) :
    parseMant neg (ip ++ '.' :: fp) e =
      some (.finite neg (natOfDigitsCh (ip ++ fp)) (e - fp.length)) := by
  unfold parseMant
  simp only [splitFirst_append ip fp (fun x hx => digit_ne (hip x hx) '.' (by decide))]
  rw [if_pos ⟨hne, List.all_eq_true.mpr hip, List.all_eq_true.mpr hfp⟩]

lemma parseNumeric_no_exp {neg : Bool} {l : List Char}
    (hl : ∀ ch ∈ l, ch ≠ 'e') :
    parseNumeric neg l = parseMant neg l 0 := by
  unfold parseNumeric
  rw [splitFirst_of_not_mem hl]

lemma parseNumeric_exp {neg : Bool} (mant exps : List Char) (E : Int)
    (hm : ∀ ch ∈ mant, ch ≠ 'e')
    (hE : parseExp exps = some E) :
    parseNumeric neg (mant ++ 'e' :: exps) = parseMant neg mant E := by
  unfold parseNumeric
  simp only [splitFirst_append mant exps hm, hE]

lemma parseExp_minus (ds : List Char) (hne : ds ≠ [])
    (hd : ∀ ch ∈ ds, isAsciiDigit ch = true) :
    parseExp ('-' :: ds) = some (-(natOfDigitsCh ds : Int)) := by
  unfold parseExp
  rw [if_pos (by simp [List.take_succ_cons])]
  simp only [List.drop_succ_cons, List.drop_zero]
  rw [if_pos ⟨hne, List.all_eq_true.mpr hd⟩]

lemma parseExp_plus (ds : List Char) (hne : ds ≠ [])
    (hd : ∀ ch ∈ ds, isAsciiDigit ch = true) :
    parseExp ('+' :: ds) = some ((natOfDigitsCh ds : Int)) := by
  unfold parseExp
  rw [if_neg (by simp [List.take_succ_cons]), if_pos (by simp [List.take_succ_cons])]
  simp only [List.drop_succ_cons, List.drop_zero]
  rw [if_pos ⟨hne, List.all_eq_true.mpr hd⟩]



lemma map_lower_id {l : List Char} (h : ∀ ch ∈ l, lowerCh ch = ch) :
    l.map lowerCh = l := by
  induction l with
  | nil => rfl
  | cons x xs ih =>
    rw [List.map_cons, h x (by simp), ih (fun ch hch => h ch (by simp [hch]))]

lemma parseMant_digits {neg : Bool} {l : List Char} (e : Int) (hne : l ≠ [])
    (hd : ∀ ch ∈ l, isAsciiDigit ch = true) :
    parseMant neg l e = some (.finite neg (natOfDigitsCh l) e) := by
  unfold parseMant
  rw [splitFirst_of_not_mem (fun x hx => digit_ne (hd x hx) '.' (by decide))]
  rw [if_pos ⟨hne, List.all_eq_true.mpr hd⟩]

lemma parse_all_digits {l : List Char} (hne : l ≠ [])
    (hd : ∀ ch ∈ l, isAsciiDigit ch = true) :
    parseSigned l = some (.finite false (natOfDigitsCh l) 0) := by
  cases l with
  | nil => exact absurd rfl hne
  | cons d0 rest =>
    rw [parseSigned_digit_head (hd d0 (by simp)), parseBody_digit_head (hd d0 (by simp)),
      parseNumeric_digits (by simp) hd]

lemma parse_split_dot {ip fp : List Char} (hne : ip ≠ [])
    (hip : ∀ ch ∈ ip, isAsciiDigit ch = true)
    (hfp : ∀ ch ∈ fp, isAsciiDigit ch = true) :
    parseSigned (ip ++ '.' :: fp) =
      some (.finite false (natOfDigitsCh (ip ++ fp)) (0 - (fp.length : Int))) := by
  cases ip with
  | nil => exact absurd rfl hne
  | cons d0 rest =>
    have hdm : ∀ ch ∈ (d0 :: rest) ++ '.' :: fp, ch ≠ 'e' := by
      intro ch hch
      rcases List.mem_append.mp hch with h | h
      · exact digit_ne (hip ch h) 'e' (by decide)
      · rcases List.mem_cons.mp h with h | h
        · subst h; decide
        · exact digit_ne (hfp ch h) 'e' (by decide)
    rw [List.cons_append, parseSigned_digit_head (hip d0 (by simp)),
      parseBody_digit_head (hip d0 (by simp)), ← List.cons_append,
      parseNumeric_no_exp hdm, parseMant_dot _ _ _ hip hfp (by simp)]

lemma parseExp_sciExpPart (ex : Int) : parseExp (sciExpPart ex) = some ex := by
  unfold sciExpPart
  by_cases hx : ex < 0
  · rw [if_pos hx, parseExp_minus _ (natDigitsCh_ne_nil _) (natDigitsCh_digits _),
      natOfDigitsCh_natDigitsCh]
    congr 1
    omega
  · rw [if_neg hx, parseExp_plus _ (natDigitsCh_ne_nil _) (natDigitsCh_digits _),
      natOfDigitsCh_natDigitsCh]
    congr 1
    omega

lemma parse_sci {ds exps : List Char} {E : Int}
    (hne : ds ≠ []) (hd : ∀ ch ∈ ds, isAsciiDigit ch = true)
    (hE : parseExp exps = some E) :
    parseSigned (sciMant ds ++ 'e' :: exps) = parseMant false (sciMant ds) E := by
  have hm_ne : ∀ ch ∈ sciMant ds, ch ≠ 'e' := by
    intro ch hch
    unfold sciMant at hch
    by_cases h1 : ds.length = 1
    · rw [if_pos h1] at hch
      exact digit_ne (hd ch hch) 'e' (by decide)
    · rw [if_neg h1] at hch
      rcases List.mem_append.mp hch with h | h
      · exact digit_ne (hd ch (List.mem_of_mem_take h)) 'e' (by decide)
      · rcases List.mem_cons.mp h with h | h
        · subst h; decide
        · exact digit_ne (hd ch (List.mem_of_mem_drop h)) 'e' (by decide)
  obtain ⟨d0, rest, hds⟩ : ∃ d0 rest, ds = d0 :: rest := by
    cases ds with
    | nil => exact absurd rfl hne
    | cons a b => exact ⟨a, b, rfl⟩
  · have hsm : ∃ r0, sciMant ds = d0 :: r0 := by
      unfold sciMant
      by_cases h1 : ds.length = 1
      · exact ⟨rest, by rw [if_pos h1, hds]⟩
      · refine ⟨'.' :: ds.drop 1, ?_⟩
        rw [if_neg h1, hds]
        rfl
    obtain ⟨r0, hr0⟩ := hsm
    have hd0 : isAsciiDigit d0 = true := hd d0 (by rw [hds]; simp)
    rw [hr0, List.cons_append, parseSigned_digit_head hd0, parseBody_digit_head hd0,
      ← List.cons_append, ← hr0, parseNumeric_exp _ _ E hm_ne hE]



lemma decimal_rt (c : Nat) (e : Int) :
    parseSigned ((decStrFinite false c e).map lowerCh) = some (.finite false c e) := by
  have hdig := natDigitsCh_digits c
  have hne := natDigitsCh_ne_nil c
  have hval := natOfDigitsCh_natDigitsCh c
  have hn1 : 1 ≤ (natDigitsCh c).length := List.length_pos.mpr hne
  by_cases hplain : e ≤ 0 ∧ -6 < e + ((natDigitsCh c).length : Int)
  · by_cases he0 : e = 0
    · have hX : decStrFinite false c e = natDigitsCh c := by
        unfold decStrFinite
        rw [if_pos hplain, if_pos he0]
        rfl
      rw [hX, map_lower_digits hdig, parse_all_digits hne hdig, hval, he0]
    · by_cases hlz : e + ((natDigitsCh c).length : Int) ≤ 0
      · have hX : decStrFinite false c e =
            '0' :: '.' :: (List.replicate (-(e + ((natDigitsCh c).length : Int))).toNat '0' ++
              natDigitsCh c) := by
          unfold decStrFinite
          rw [if_pos hplain, if_neg he0, if_pos hlz]
          rfl
        set z := (-(e + ((natDigitsCh c).length : Int))).toNat with hz
        have hfp_dig : ∀ ch ∈ List.replicate z '0' ++ natDigitsCh c,
            isAsciiDigit ch = true := by
          intro ch hch
          rcases List.mem_append.mp hch with h | h
          · rw [List.eq_of_mem_replicate h]; rfl
          · exact hdig ch h
        have hmap : (decStrFinite false c e).map lowerCh = decStrFinite false c e := by
          rw [hX, List.map_cons, List.map_cons, map_lower_digits hfp_dig]
          rfl
        rw [hmap, hX,
          show ('0' :: '.' :: (List.replicate z '0' ++ natDigitsCh c)) =
            (['0'] ++ '.' :: (List.replicate z '0' ++ natDigitsCh c)) from rfl,
          parse_split_dot (by simp)
            (by intro ch hch; simp only [List.mem_singleton] at hch; subst hch; rfl)
            hfp_dig]
        have hcoeff : natOfDigitsCh (['0'] ++ (List.replicate z '0' ++ natDigitsCh c)) = c := by
          rw [show (['0'] ++ (List.replicate z '0' ++ natDigitsCh c)) =
              ('0' :: (List.replicate z '0' ++ natDigitsCh c)) from rfl,
            natOfDigitsCh_zero_cons, natOfDigitsCh_zeros, hval]
        rw [hcoeff]
        have hexp : (0 : Int) - ((List.replicate z '0' ++ natDigitsCh c).length : Int) = e := by
          rw [List.length_append, List.length_replicate]
          omega
        rw [hexp]
      · have hX : decStrFinite false c e =
            (natDigitsCh c).take (e + ((natDigitsCh c).length : Int)).toNat ++
              '.' :: (natDigitsCh c).drop (e + ((natDigitsCh c).length : Int)).toNat := by
          unfold decStrFinite
          rw [if_pos hplain, if_neg he0, if_neg hlz]
          rfl
        set kt := (e + ((natDigitsCh c).length : Int)).toNat with hk
        have htake_dig : ∀ ch ∈ (natDigitsCh c).take kt, isAsciiDigit ch = true :=
          fun ch hch => hdig ch (List.mem_of_mem_take hch)
        have hdrop_dig : ∀ ch ∈ (natDigitsCh c).drop kt, isAsciiDigit ch = true :=
          fun ch hch => hdig ch (List.mem_of_mem_drop hch)
        have htk_ne : (natDigitsCh c).take kt ≠ [] := by
          intro hnil
          rcases List.take_eq_nil_iff.mp hnil with h | h
          · omega
          · exact hne h
        have hmap : (decStrFinite false c e).map lowerCh = decStrFinite false c e := by
          rw [hX]
          apply map_lower_id
          intro ch hch
          rcases List.mem_append.mp hch with h | h
          · exact digit_lower (htake_dig ch h)
          · rcases List.mem_cons.mp h with h | h
            · subst h; rfl
            · exact digit_lower (hdrop_dig ch h)
        rw [hmap, hX, parse_split_dot htk_ne htake_dig hdrop_dig]
        have hcoeff : natOfDigitsCh ((natDigitsCh c).take kt ++ (natDigitsCh c).drop kt) = c := by
          rw [List.take_append_drop, hval]
        rw [hcoeff]
        have hexp : (0 : Int) - (((natDigitsCh c).drop kt).length : Int) = e := by
          rw [List.length_drop]
          omega
        rw [hexp]
  · have hX : decStrFinite false c e =
        sciMant (natDigitsCh c) ++
          'E' :: sciExpPart (e + ((natDigitsCh c).length : Int) - 1) := by
      unfold decStrFinite
      rw [if_neg hplain]
      rfl
    set ex := e + ((natDigitsCh c).length : Int) - 1 with hex
    have hmant_map : (sciMant (natDigitsCh c)).map lowerCh = sciMant (natDigitsCh c) := by
      apply map_lower_id
      intro ch hch
      unfold sciMant at hch
      by_cases h1 : (natDigitsCh c).length = 1
      · rw [if_pos h1] at hch
        exact digit_lower (hdig ch hch)
      · rw [if_neg h1] at hch
        rcases List.mem_append.mp hch with h | h
        · exact digit_lower (hdig ch (List.mem_of_mem_take h))
        · rcases List.mem_cons.mp h with h | h
          · subst h; rfl
          · exact digit_lower (hdig ch (List.mem_of_mem_drop h))
    have hexp_map : (sciExpPart ex).map lowerCh = sciExpPart ex := by
      apply map_lower_id
      intro ch hch
      unfold sciExpPart at hch
      by_cases hx : ex < 0
      · rw [if_pos hx] at hch
        rcases List.mem_cons.mp hch with h | h
        · subst h; rfl
        · exact digit_lower (natDigitsCh_digits _ ch h)
      · rw [if_neg hx] at hch
        rcases List.mem_cons.mp hch with h | h
        · subst h; rfl
        · exact digit_lower (natDigitsCh_digits _ ch h)
    have hmap : (decStrFinite false c e).map lowerCh =
        sciMant (natDigitsCh c) ++ 'e' :: sciExpPart ex := by
      rw [hX, List.map_append, hmant_map, List.map_cons, hexp_map]
      rfl
    rw [hmap, parse_sci hne hdig (parseExp_sciExpPart ex)]
    by_cases h1 : (natDigitsCh c).length = 1
    · rw [show sciMant (natDigitsCh c) = natDigitsCh c from by
        unfold sciMant; rw [if_pos h1]]
      rw [parseMant_digits ex hne hdig, hval]
      have : ex = e := by omega
      rw [this]
    · rw [show sciMant (natDigitsCh c) =
          (natDigitsCh c).take 1 ++ '.' :: (natDigitsCh c).drop 1 from by
        unfold sciMant; rw [if_neg h1]]
      rw [parseMant_dot _ _ _ (fun ch h => hdig ch (List.mem_of_mem_take h))
        (fun ch h => hdig ch (List.mem_of_mem_drop h))
        (by rw [List.take_append_drop]; exact hne)]
      have hcoeff : natOfDigitsCh ((natDigitsCh c).take 1 ++ (natDigitsCh c).drop 1) = c := by
        rw [List.take_append_drop, hval]
      rw [hcoeff]
      have hexp2 : ex - (((natDigitsCh c).drop 1).length : Int) = e := by
        rw [List.length_drop]
        omega
      rw [hexp2]



lemma digit_plain {ch : Char} (h : isAsciiDigit ch = true) : plainCh ch = true := by
  simp [plainCh, h]

lemma decStrFinite_body (c : Nat) (e : Int) :
    decStrFinite false c e =
      (if e ≤ 0 ∧ -6 < e + ((natDigitsCh c).length : Int) then
        (if e = 0 then natDigitsCh c
         else if e + ((natDigitsCh c).length : Int) ≤ 0 then
           '0' :: '.' :: (List.replicate (-(e + ((natDigitsCh c).length : Int))).toNat '0' ++
             natDigitsCh c)
         else (natDigitsCh c).take (e + ((natDigitsCh c).length : Int)).toNat ++
           '.' :: (natDigitsCh c).drop (e + ((natDigitsCh c).length : Int)).toNat)
       else sciMant (natDigitsCh c) ++
         'E' :: sciExpPart (e + ((natDigitsCh c).length : Int) - 1)) := rfl

lemma decStrFinite_ne_nil (c : Nat) (e : Int) : decStrFinite false c e ≠ [] := by
  rw [decStrFinite_body]
  split_ifs <;> simp [natDigitsCh_ne_nil, sciMant]

lemma decStrFinite_plain (c : Nat) (e : Int) :
    ∀ ch ∈ decStrFinite false c e, plainCh ch = true := by
  intro ch hch
  rw [decStrFinite_body] at hch
  split_ifs at hch
  · exact digit_plain (natDigitsCh_digits c ch hch)
  · rcases List.mem_cons.mp hch with h | h
    · subst h; rfl
    rcases List.mem_cons.mp h with h | h
    · subst h; rfl
    rcases List.mem_append.mp h with h | h
    · rw [List.eq_of_mem_replicate h]; rfl
    · exact digit_plain (natDigitsCh_digits c ch h)
  · rcases List.mem_append.mp hch with h | h
    · exact digit_plain (natDigitsCh_digits c ch (List.mem_of_mem_take h))
    rcases List.mem_cons.mp h with h | h
    · subst h; rfl
    · exact digit_plain (natDigitsCh_digits c ch (List.mem_of_mem_drop h))
  · rcases List.mem_append.mp hch with h | h
    · unfold sciMant at h
      split_ifs at h
      · exact digit_plain (natDigitsCh_digits c ch h)
      · rcases List.mem_append.mp h with h | h
        · exact digit_plain (natDigitsCh_digits c ch (List.mem_of_mem_take h))
        rcases List.mem_cons.mp h with h | h
        · subst h; rfl
        · exact digit_plain (natDigitsCh_digits c ch (List.mem_of_mem_drop h))
    · rcases List.mem_cons.mp h with h | h
      · subst h; rfl
      · unfold sciExpPart at h
        split_ifs at h <;> rcases List.mem_cons.mp h with h | h <;>
          first
            | (subst h; rfl)
            | exact digit_plain (natDigitsCh_digits _ ch h)

lemma parse_decimal_decStr_fin (c : Nat) (e : Int) :
    parse_decimal (decStr (.finite false c e)) = some (.finite false c e) := by
  have hplain := decStrFinite_plain c e
  have hf : (((decStr (Dec.finite false c e)).data.filter
      (fun ch => ch ≠ '¥')).filter (fun ch => ch ≠ ',')) = decStrFinite false c e := by
    have h1 : (decStrFinite false c e).filter (fun ch => ch ≠ '¥') =
        decStrFinite false c e :=
      List.filter_eq_self.mpr
        (fun ch hch => by simpa using (plain_ne (hplain ch hch)).2.1)
    have h2 : (decStrFinite false c e).filter (fun ch => ch ≠ ',') =
        decStrFinite false c e :=
      List.filter_eq_self.mpr
        (fun ch hch => by simpa using (plain_ne (hplain ch hch)).2.2)
    show (((decStrFinite false c e).filter
      (fun ch => ch ≠ '¥')).filter (fun ch => ch ≠ ',')) = decStrFinite false c e
    rw [h1, h2]
  have hs : stripWsList (decStrFinite false c e) = decStrFinite false c e :=
    stripWs_of_no_space (fun ch hch => plain_not_space (hplain ch hch))
  unfold parse_decimal
  rw [hf, hs, if_neg (decStrFinite_ne_nil c e)]
  unfold decimalCtor
  rw [hs, List.filter_eq_self.mpr
    (fun ch hch => by simpa using (plain_ne (hplain ch hch)).1)]
  exact decimal_rt c e

lemma parse_price_decStr {v : Dec} (hnan : v.isNaN = false) (hlt : v.lt1 = false) :
    parse_price (decStr v) = .ok v := by
  cases v with
  | nan s p => simp [Dec.isNaN] at hnan
  | infinity neg =>
    have hn : neg = false := hlt
    subst hn
    rfl
  | finite neg c e =>
    have hc0 : c ≠ 0 := by
      intro h
      subst h
      simp [Dec.lt1] at hlt
    have hneg : neg = false := by
      by_contra h
      rw [Bool.not_eq_false] at h
      subst h
      simp [Dec.lt1, hc0] at hlt
    subst hneg
    unfold parse_price
    rw [parse_decimal_decStr_fin]
    simp only [Dec.isNaN, hlt]
    rw [if_neg (by simp), if_neg (by simp [hlt])]



lemma pyStrip_idem (s : String) : pyStrip (pyStrip s) = pyStrip s :=
  congrArg String.mk (stripWs_idem s.data)

lemma types_trim : ∀ x ∈ TRANSACTION_TYPES, pyStrip x = x := by decide

lemma expense_cats_trim : ∀ x ∈ EXPENSE_CATEGORIES, pyStrip x = x ∧ x ≠ "" := by decide

lemma income_cats_trim : ∀ x ∈ INCOME_CATEGORIES, pyStrip x = x ∧ x ≠ "" := by decide

lemma parse_price_ok {p : String} {v : Dec} (h : parse_price p = .ok v) :
    v.isNaN = false ∧ v.lt1 = false := by
  unfold parse_price at h
  split at h
  · cases h
  · split_ifs at h with h1 h2
    cases h
    simp only [Bool.not_eq_true] at h1 h2
    exact ⟨h1, h2⟩

lemma buildFormApp_ok {d k c p m : String} {t : Transaction}
    (h : buildFormApp d k c p m = .ok t) :
    (∃ dd, parse_date d = .ok dd) ∧ t.date = d ∧
    t.transaction_type = pyStrip k ∧ pyStrip k ∈ TRANSACTION_TYPES ∧
    parse_price p = .ok t.price ∧
    t.category = normalize_category c (pyStrip k)
      EXPENSE_CATEGORIES INCOME_CATEGORIES ∧
    t.memo = pyStrip m := by
  unfold buildFormApp build_transaction_from_form at h
  cases hd : parse_date d <;> rw [hd] at h
  · exact absurd h (by simp)
  cases hk : validate_transaction_type k TRANSACTION_TYPES <;> rw [hk] at h
  · exact absurd h (by simp)
  cases hp2 : parse_price p <;> rw [hp2] at h
  · exact absurd h (by simp)
  rename_i dd vt v
  have hmem : pyStrip k ∈ TRANSACTION_TYPES := by
    unfold validate_transaction_type at hk
    by_cases hm2 : pyStrip k ∈ TRANSACTION_TYPES
    · exact hm2
    · rw [if_neg hm2] at hk; cases hk
  have hvt : vt = pyStrip k := by
    unfold validate_transaction_type at hk
    rw [if_pos hmem] at hk
    cases hk; rfl
  subst hvt
  cases h
  exact ⟨⟨dd, rfl⟩, rfl, rfl, hmem, rfl, rfl, rfl⟩

lemma normalize_mem (c vt : String) :
    normalize_category c vt EXPENSE_CATEGORIES INCOME_CATEGORIES ∈
      (if vt = "支出" then EXPENSE_CATEGORIES else INCOME_CATEGORIES) := by
  unfold normalize_category
  by_cases hc : pyStrip c = "" ∨ pyStrip c ∉
      (if vt = "支出" then EXPENSE_CATEGORIES else INCOME_CATEGORIES)
  · rw [if_pos hc]
    by_cases hv : vt = "支出" <;> simp [hv] <;> decide
  · rw [if_neg hc]
    push_neg at hc
    exact hc.2

lemma reimport_row {t : Transaction}
    (hb : ∃ d k c p m, buildFormApp d k c p m = .ok t)
    (hdate : pyStrip t.date = t.date) :
    validatorApp (rowOf t) = .ok t := by
  obtain ⟨d, k, c, p, m, hb⟩ := hb
  obtain ⟨⟨dd, hdd⟩, hd, hty, hmem, hpr, hcat, hmemo⟩ := buildFormApp_ok hb
  show buildFormApp (pyStrip t.date) t.transaction_type t.category
    (decStr t.price) t.memo = .ok t
  rw [hdate]
  have hty_mem : t.transaction_type ∈ TRANSACTION_TYPES := hty ▸ hmem
  have hty_strip : pyStrip t.transaction_type = t.transaction_type :=
    types_trim _ hty_mem
  have hcat_mem : t.category ∈
      (if t.transaction_type = "支出" then EXPENSE_CATEGORIES
       else INCOME_CATEGORIES) := by
    rw [hcat, hty]
    exact normalize_mem c (pyStrip k)
  have hcat_facts : pyStrip t.category = t.category ∧ t.category ≠ "" := by
    by_cases hv : t.transaction_type = "支出"
    · rw [if_pos hv] at hcat_mem
      exact expense_cats_trim _ hcat_mem
    · rw [if_neg hv] at hcat_mem
      exact income_cats_trim _ hcat_mem
  obtain ⟨hnan, hlt⟩ := parse_price_ok hpr
  have hmemo_strip : pyStrip t.memo = t.memo := by
    rw [hmemo]; exact pyStrip_idem m
  have hdd2 : parse_date t.date = .ok dd := by rw [hd]; exact hdd
  have hvv : validate_transaction_type t.transaction_type TRANSACTION_TYPES =
      .ok t.transaction_type := by
    unfold validate_transaction_type
    rw [hty_strip, if_pos hty_mem]
  have hnorm : normalize_category t.category t.transaction_type
      EXPENSE_CATEGORIES INCOME_CATEGORIES = t.category := by
    unfold normalize_category
    rw [if_neg]
    · exact hcat_facts.1
    · push_neg
      rw [hcat_facts.1]
      exact ⟨hcat_facts.2, hcat_mem⟩
  unfold buildFormApp build_transaction_from_form
  simp only [hdd2, hvv, parse_price_decStr hnan hlt, hnorm, hmemo_strip]

lemma import_fold (ts : List Transaction)
    (hts : ∀ t ∈ ts, validatorApp (rowOf t) = .ok t) :
    ∀ (a i : Nat) (acc : List Transaction),
    (ts.map rowOf).foldl (importStep validatorApp) (.ok (a, i, acc)) =
      .ok (a + ts.length, i, acc ++ ts) := by
  induction ts with
  | nil => intro a i acc; simp
  | cons t ts ih =>
    intro a i acc
    rw [List.map_cons, List.foldl_cons]
    rw [show importStep validatorApp (.ok (a, i, acc)) (rowOf t) =
        .ok (a + 1, i, acc ++ [t]) from by
      unfold importStep
      rw [hts t (by simp)]]
    rw [ih (fun x hx => hts x (by simp [hx])) (a + 1) i (acc ++ [t])]
    rw [show a + 1 + ts.length = a + (ts.length + 1) from by omega,
      List.append_assoc, List.singleton_append]
    rfl

/-- C1 (amended): for every non-empty store whose transactions were
built by the validation pipeline and whose stored date strings carry no
surrounding whitespace (as is the case for every row-imported
transaction), exporting to the delimited format and re-importing yields
an accepted count equal to the entry count, a rejected count of zero,
and reconstructed transactions equal to the originals in every field —
the amount round-tripping through its exact decimal string. -/
theorem c1_roundtrip (mgr : TransactionManager) (_hne : mgr.items ≠ [])
    (hb : ∀ q ∈ mgr.items,
      (∃ d k c p m, buildFormApp d k c p m = .ok q.2) ∧
        pyStrip q.2.date = q.2.date) :
    import_rows validatorApp (export_rows mgr) =
      .ok (mgr.items.length, 0, mgr.items.map (fun q => q.2)) := by
  unfold import_rows export_rows
  rw [show headerLike (csvHeader5 :: mgr.items.map (fun q => rowOf q.2)) = true from rfl]
  simp only [if_true, List.drop_succ_cons, List.drop_zero]
  rw [show mgr.items.map (fun q => rowOf q.2) =
      (mgr.items.map (fun q => q.2)).map rowOf from by rw [List.map_map]; rfl]
  rw [import_fold (mgr.items.map (fun q => q.2))
    (fun t ht => by
      obtain ⟨q, hq, hq2⟩ := List.mem_map.mp ht
      exact reimport_row (hq2 ▸ (hb q hq).1) (hq2 ▸ (hb q hq).2)) 0 0 []]
  simp




/-! ## Claims C3, C4, C5, C6, C7, C10 -/


/-- C3: the stated example holds — a file of 3 valid rows and one
two-field row imports as `(accepted = 3, rejected = 1)`, the short row
failing with `insufficient_columns` and only incrementing the rejected
count. But the import is NOT abort-free for every readable file: a row
whose amount cell is `"NaN"` raises `decimal.InvalidOperation` inside
the row loop, which `except ValueError` does not catch, so the whole
bulk load aborts as an `IOError` (the claim's "never aborts because of
a single bad row" is violated by the code). -/
theorem c3_import_eval :
    import_rows validatorApp c3file =
      .ok (3, 1,
        [⟨"2024/01/05", "支出", "食費", .finite false 1000 0, ""⟩,
         ⟨"2024/01/06", "収入", "給与", .finite false 2000 0, ""⟩,
         ⟨"2024/01/07", "支出", "交通", .finite false 300 0, ""⟩]) ∧
    import_rows validatorApp [["2024/01/05", "支出", "食費", "NaN"]] = .error () :=
  ⟨rfl, rfl⟩

/-- C4: `parse_price` behaves as specified on the three stated examples,
but the claimed trichotomy is violated: for input `"NaN"` the parse
succeeds (NaN is a valid decimal numeric string) and the subsequent
`value < 1` comparison raises `decimal.InvalidOperation`, a failure
outside the two documented error kinds. -/
theorem c4_parse_price_eval :
    parse_price "NaN" = .error .invalidOperation ∧
    parse_price "¥1,234" = .ok (.finite false 1234 0) ∧
    parse_price "0" = .error (.valueError .negative_price) ∧
    parse_price "" = .error (.valueError .invalid_price) := ⟨rfl, rfl, rfl, rfl⟩

/-- C5 counterexample: `"2024/111/05"` is three `/`-separated numeric
groups whose month (111) is outside 1–12, so the claim requires
`NonexistentDate`; the code instead gets a generic "Invalid isoformat
string" error from `date.fromisoformat` (three-digit month) and reports
`format_error` (MalformedDate). -/
theorem c5_counterexample :
    parse_date "2024/111/05" = .error (.valueError .format_error) ∧
    (Except.error (PyExn.valueError .format_error) : Except PyExn CalDate) ≠
      .error (.valueError .invalid_date) := ⟨rfl, by simp⟩

/-- C5 (amended): `parse_date` classifies every input exactly as the
amended specification: EmptyDate on blank input; MalformedDate unless
the text is exactly three `/`-separated numeric groups in 4-2-2 digit
widths with a nonzero year; NonexistentDate when the widths are right
but the month is outside 1–12 or the day is not a real day of that
month/year; otherwise the calendar date. -/
theorem c5_date_classifier (s : String) : parse_date s = specDateResult s := by
  unfold parse_date specDateResult
  by_cases h0 : stripWsList s.data = []
  · simp [h0]
  · simp only [h0, if_false]
    rcases hp : splitChar '/' (stripWsList s.data) with _ | ⟨y, _ | ⟨m, _ | ⟨d, _ | ⟨r, tl⟩⟩⟩⟩ <;>
      simp only [hp, List.length_nil, List.length_cons, List.all_cons, List.all_nil,
        Bool.and_true, if_false, if_true]
    · simp
    · simp
    · simp
    · simp only [show ¬((3 : Nat) ≠ 3) by omega, if_false]
      by_cases hg : (isDigitGroup y && (isDigitGroup m && isDigitGroup d)) = true
      · simp only [hg, Bool.not_true, if_false]
        have hg' : (isDigitGroup y && isDigitGroup m && isDigitGroup d) = true := by
          simpa [Bool.and_assoc] using hg
        rw [if_pos hg']
        exact iso_bridge y m d
      · simp only [Bool.not_eq_true] at hg
        have hg' : ¬ (isDigitGroup y && isDigitGroup m && isDigitGroup d) = true := by
          simp only [Bool.and_assoc]; simp [hg]
        simp [hg, hg']
    · simp


/-- C6 counterexample: for arbitrary store contents the income component
is NOT the sum of amounts of Income entries — an entry with the
unrecognized type `"その他"` is added to the income sum (100), while the
sum over Income (`収入`) entries is 0. -/
theorem c6_counterexample :
    c6mgr.calculate_totals.2.1 = .finite false 100 0 ∧
    decSum ((c6mgr.items.filter
      (fun it => it.2.transaction_type = "収入")).map (fun it => it.2.price)) = Dec.zero ∧
    (Dec.finite false 100 0) ≠ Dec.zero := by decide

/-- C6 (amended): for every store all of whose entries have kind
Expense (`支出`) or Income (`収入`), `calculate_totals` is the triple
(sum of Expense amounts, sum of Income amounts, income − expense),
computed in one pass with exact decimal arithmetic. -/
theorem c6_totals (mgr : TransactionManager)
    (h : ∀ p ∈ mgr.items,
      p.2.transaction_type = "支出" ∨ p.2.transaction_type = "収入") :
    mgr.calculate_totals =
      (decSum ((mgr.items.filter
          (fun it => it.2.transaction_type = "支出")).map (fun it => it.2.price)),
       decSum ((mgr.items.filter
          (fun it => it.2.transaction_type = "収入")).map (fun it => it.2.price)),
       (decSum ((mgr.items.filter
          (fun it => it.2.transaction_type = "収入")).map (fun it => it.2.price))).subE
         (decSum ((mgr.items.filter
          (fun it => it.2.transaction_type = "支出")).map (fun it => it.2.price)))) := by
  have hfc : mgr.items.filter (fun it => ¬ it.2.transaction_type = "支出") =
      mgr.items.filter (fun it => it.2.transaction_type = "収入") := by
    apply List.filter_congr
    intro x hx
    rcases h x hx with h1 | h1 <;> simp [h1]
  unfold TransactionManager.calculate_totals decSum
  rw [totals_foldl, hfc]


/-- C6 witness: the amended theorem applied to the specification's
example `[{Expense,100},{Income,250},{Expense,50}]` gives totals
`(150, 250, 100)`. -/
theorem c6_totals_witness :
    c6mgr3.calculate_totals =
      (Dec.finite false 150 0, Dec.finite false 250 0, Dec.finite false 100 0) :=
  (c6_totals c6mgr3 (by decide)).trans (by decide)

/-- C7: the parse step of import never mutates the store (for any file
outcome and any row validator), export never mutates the store whether
the path is writable or not, and an import whose file read fails leaves
the event handler's store exactly as it was — accepted rows are only
committed after the whole file has been parsed. -/
theorem c7_store_atomicity (mgr : TransactionManager)
    (file : Option (List (List String)))
    (validator : List String → Except PyExn Transaction) :
    (mgr.import_csv file validator).1 = mgr ∧
    (∀ w : Bool, (mgr.export_csv w).1 = mgr) ∧
    on_import_csv mgr none = mgr :=
  ⟨rfl, fun _ => rfl, rfl⟩

/-- C10: in `calculate_totals` there is no third branch — the income
component is the fold of the amounts of ALL entries whose transaction
type is not exactly `支出`, so any entry with an unrecognized type is
counted as income. -/
theorem c10_income_bucket (mgr : TransactionManager) :
    mgr.calculate_totals.2.1 =
      decSum ((mgr.items.filter
        (fun it => ¬ it.2.transaction_type = "支出")).map (fun it => it.2.price)) := by
  unfold TransactionManager.calculate_totals decSum
  rw [totals_foldl]

/-! ## Claims C2 and C8 -/

/-- C2: whenever two or more raw fields are invalid, the pipeline
reports exactly the single error of the first failing check in the fixed
order date → kind → amount (category normalization never fails); in
particular an input with both an invalid date and an invalid amount
reports the date error. -/
theorem c2_first_error_order (d k c p m : String)
    (h : 2 ≤ invalidFieldCount d k c p) :
    buildFormApp d k c p m = .error (firstFormError d k p) := by
  unfold buildFormApp build_transaction_from_form firstFormError
  cases hd : parse_date d with
  | error e => rfl
  | ok dd =>
    cases hk : validate_transaction_type k TRANSACTION_TYPES with
    | error e => rfl
    | ok vt =>
      cases hp2 : parse_price p with
      | error e => rfl
      | ok v =>
        exfalso
        have hmem : pyStrip k ∈ TRANSACTION_TYPES := by
          by_contra hm
          unfold validate_transaction_type at hk
          simp [hm] at hk
        unfold invalidFieldCount dateInvalid typeInvalid amountInvalid at h
        rw [hd, hp2] at h
        simp [hmem] at h
        have : (categoryInvalid c k).toNat ≤ 1 := Bool.toNat_le (categoryInvalid c k)
        omega

/-- C2 witness: an input with a malformed date and an unparsable amount
(two invalid fields) reports the date's `format_error`. -/
theorem c2_first_error_order_witness :
    buildFormApp "bad" "支出" "食費" "xx" "" = .error (.valueError .format_error) :=
  c2_first_error_order "bad" "支出" "食費" "xx" "" (by decide)

/-- C8: every transaction the pipeline accepts carries a category that
is a member of the closed list for its kind, and when the raw category
input is blank or not in that list the stored category is the list's
first (default) entry. -/
theorem c8_category_invariant (d k c p m : String) (t : Transaction)
    (h : buildFormApp d k c p m = .ok t) :
    t.category ∈ categoriesFor t.transaction_type ∧
    ((pyStrip c = "" ∨ pyStrip c ∉ categoriesFor t.transaction_type) →
      t.category = (categoriesFor t.transaction_type).headD "") := by
  unfold buildFormApp build_transaction_from_form at h
  cases hd : parse_date d <;> rw [hd] at h
  · exact absurd h (by simp)
  cases hk : validate_transaction_type k TRANSACTION_TYPES <;> rw [hk] at h
  · exact absurd h (by simp)
  cases hp2 : parse_price p <;> rw [hp2] at h
  · exact absurd h (by simp)
  rename_i vt v
  have ht : t = ⟨d, vt, normalize_category c vt EXPENSE_CATEGORIES INCOME_CATEGORIES,
      v, pyStrip m⟩ := by
    cases h; rfl
  subst ht
  simp only [categoriesFor, normalize_category]
  by_cases hv : vt = "支出" <;> simp only [hv, if_true, if_false]
  · by_cases hc : pyStrip c = "" ∨ pyStrip c ∉ EXPENSE_CATEGORIES
    · rw [if_pos hc]
      exact ⟨by decide, fun _ => rfl⟩
    · rw [if_neg hc]
      push_neg at hc
      exact ⟨hc.2, fun hcc => absurd hcc (by push_neg; exact hc)⟩
  · by_cases hc : pyStrip c = "" ∨ pyStrip c ∉ INCOME_CATEGORIES
    · rw [if_pos hc]
      exact ⟨by decide, fun _ => rfl⟩
    · rw [if_neg hc]
      push_neg at hc
      exact ⟨hc.2, fun hcc => absurd hcc (by push_neg; exact hc)⟩

/-- C8 witness: an expense submitted with the unknown category
`"Unknown"` is accepted and stored with the first expense category. -/
theorem c8_category_invariant_witness :
    ("食費" : String) ∈ categoriesFor "支出" ∧
    ((pyStrip "Unknown" = "" ∨ pyStrip "Unknown" ∉ categoriesFor "支出") →
      ("食費" : String) = (categoriesFor "支出").headD "") :=
  c8_category_invariant "2025/01/02" "支出" "Unknown" "100" "x"
    ⟨"2025/01/02", "支出", "食費", .finite false 100 0, "x"⟩ rfl

/-- C1 counterexample: `build_transaction_from_form` stores the date
string exactly as submitted, so a transaction built from a date with a
leading space keeps that space; re-importing its exported row trims the
date (`build_transaction_from_row` strips it), so the round-trip,
although accepted with zero rejections, reconstructs a transaction whose
date field differs from the original — refuting the claim for arbitrary
pipeline-built stores. -/
theorem c1_counterexample :
    buildFormApp " 2025/01/01" "支出" "食費" "100" "" = .ok c1tx0 ∧
    import_rows validatorApp (export_rows ⟨[("i1", c1tx0)]⟩) =
      .ok (1, 0, [⟨"2025/01/01", "支出", "食費", .finite false 100 0, ""⟩]) ∧
    ("2025/01/01" : String) ≠ " 2025/01/01" := ⟨rfl, rfl, by decide⟩

/-- C1 witness: the amended round-trip theorem applied to a concrete
two-entry store (a `¥1,234` expense with a memo and a `2000.50` income),
yielding accepted = 2, rejected = 0 and the original transactions. -/
theorem c1_roundtrip_witness :
    import_rows validatorApp (export_rows c1mgr) = .ok (2, 0, [c1tx1, c1tx2]) := by
  have h := c1_roundtrip c1mgr (by decide)
    (by
      intro q hq
      simp only [c1mgr, List.mem_cons, List.not_mem_nil, or_false] at hq
      rcases hq with hq | hq
      · refine ⟨⟨"2025/01/03", "支出", "食費", "¥1,234", "memo x", ?_⟩, ?_⟩ <;>
          rw [hq]
        · rfl
        · rfl
      · refine ⟨⟨"2025/02/14", "収入", "給与", "2000.50", "", ?_⟩, ?_⟩ <;>
          rw [hq]
        · rfl
        · rfl)
  exact h

end Kakeibo
